import Mathlib

/-!
Shallow embedding of the GEDF non-preemptive scheduler
(src/core/threaded/scheduler_GEDF_NP.c) of the reactor-c threaded runtime,
together with proofs of the specification claims about it.

Machine integers (`size_t`, the 64-bit reaction index) are modelled as `Nat`
with explicit wraparound where the C code can underflow.  The priority queue,
the `LEVEL` projection and the tag type are external collaborators of the
scheduler (their code is not part of this repository snapshot); they are
modelled from the specification where needed and marked as such.
-/

namespace GedfNP

/-- Status of a reaction, the `reaction_status_t` enum used by the scheduler:
`inactive`, `queued`, `running`.  Mutated only by compare-and-swap. -/
inductive ReactionStatus where
  | inactive
  | queued
  | running
deriving DecidableEq, Repr

/-- A reaction (`reaction_t`) as the scheduler sees it: a 64-bit total-order
`index`, an atomically updated `status`, and a diagnostic `name`. -/
structure Reaction where
  index : Nat
  status : ReactionStatus
  name : String
deriving DecidableEq, Repr

/-- Modelled from the spec: the `LEVEL(index)` projection (defined in the
runtime headers, not in this snapshot) extracts the high bits of the 64-bit
index; the spec fixes only that the high bits encode the level and the low
bits the deadline/precedence, so we take the high 16 bits of a 64-bit index. -/
def LEVEL (index : Nat) : Nat :=
  index / 2 ^ 48

/-- The C expression `_lf_sched_next_reaction_level - 1` on a `size_t`:
subtraction wraps around at zero. -/
def wrapSub1 (n : Nat) : Nat :=
  if n = 0 then 2 ^ 64 - 1 else n - 1

/-- The scheduler state touched by the enqueue path and the level advancer:
`rqa` is `vector_of_reaction_qs` (each slot a priority queue, modelled as the
list of its elements), `executing_slot` is the index of the slot the
`executing_q` pointer aliases, and `next_reaction_level` is
`_lf_sched_next_reaction_level`. -/
structure SchedState where
  rqa : Nat → List Reaction
  executing_slot : Nat
  next_reaction_level : Nat

/-- `_lf_sched_insert_reaction(reaction)`: computes
`reaction_level = LEVEL(reaction->index)`; in FEDERATED builds it locks
`_lf_sched_executing_q_mutex` exactly when
`reaction_level == _lf_sched_next_reaction_level - 1` (size_t arithmetic);
then inserts into `vector_of_reaction_qs[reaction_level]`.  The first
component of the result records whether the insert was performed under the
mutex. -/
def lf_sched_insert_reaction (reaction : Reaction) (s : SchedState) :
    Bool × SchedState :=
  let reaction_level := LEVEL reaction.index
  let locked := decide (reaction_level = wrapSub1 s.next_reaction_level)
  (locked,
    { s with
      rqa := fun l =>
        if l = reaction_level then s.rqa l ++ [reaction] else s.rqa l })

/-- `lf_sched_trigger_reaction(reaction, worker_number)`: if `reaction` is not
NULL and the CAS `status: inactive -> queued` succeeds, insert the reaction
(whose status is now `queued`) into the reaction queue array; otherwise do
nothing.  The reaction is a heap object shared with the caller, so its updated
value is returned alongside the state.  `worker_number` is accepted but unused
by the code. -/
def lf_sched_trigger_reaction (reaction : Option Reaction) (worker_number : Int)
    (s : SchedState) : SchedState × Option Reaction :=
  match reaction with
  | none => (s, none)
  | some r =>
    if r.status = ReactionStatus.inactive then
      let r2 := { r with status := ReactionStatus.queued }
      ((lf_sched_insert_reaction r2 s).2, some r2)
    else
      (s, some r)

/-- One trigger call seen as a transformer of the pair
(scheduler state, shared reaction cell), for stating idempotence. -/
def triggerStep (p : SchedState × Option Reaction) (worker_number : Int) :
    SchedState × Option Reaction :=
  lf_sched_trigger_reaction p.2 worker_number p.1

/-- Result of `lf_sched_done_with_reaction`: either the updated reaction or a
fatal abort via `error_print_and_exit`. -/
inductive DoneResult where
  | ok (r : Reaction)
  | fatal (msg : String)
deriving DecidableEq, Repr

/-- `lf_sched_done_with_reaction(worker_number, done_reaction)`: CAS
`status: queued -> inactive`; on failure the runtime aborts with a fatal
diagnostic.  `worker_number` is accepted but unused by the code. -/
def lf_sched_done_with_reaction (worker_number : Nat) (done_reaction : Reaction) :
    DoneResult :=
  if done_reaction.status = ReactionStatus.queued then
    DoneResult.ok { done_reaction with status := ReactionStatus.inactive }
  else
    DoneResult.fatal "Unexpected reaction status"

/-- `_lf_sched_notify_workers()`: with `n` the current
`_lf_sched_number_of_idle_workers` and `k` the current
`pqueue_size(executing_q)`, computes `workers_to_be_awaken = MIN(n, k)`,
subtracts it from the idle count, and if it exceeds 1 releases the semaphore
by `workers_to_be_awaken - 1` permits.  Returns the new idle count and the
number of permits released. -/
def lf_sched_notify_workers (number_of_idle_workers : Nat)
    (executing_q_size : Nat) : Nat × Nat :=
  let workers_to_be_awaken := min number_of_idle_workers executing_q_size
  (number_of_idle_workers - workers_to_be_awaken,
    if workers_to_be_awaken > 1 then workers_to_be_awaken - 1 else 0)

/-- The loop body of `_lf_sched_distribute_ready_reactions_locked`, with an
explicit fuel argument standing for the remaining loop iterations (the C
`for` loop runs `_lf_sched_next_reaction_level` from its entry value up to
`MAX_REACTION_LEVEL`): each iteration points `executing_q` at
`vector_of_reaction_qs[next_reaction_level]`, reads its size, and either
returns it (after one final increment of the level) when non-zero or
increments the level and continues. -/
def distributeGo (maxLevel : Nat) : Nat → SchedState → Nat × SchedState
  | 0, s => (0, s)
  | fuel + 1, s =>
    if s.next_reaction_level ≤ maxLevel then
      let s1 := { s with executing_slot := s.next_reaction_level }
      let reactions_to_execute := (s1.rqa s1.next_reaction_level).length
      if reactions_to_execute > 0 then
        (reactions_to_execute,
          { s1 with next_reaction_level := s1.next_reaction_level + 1 })
      else
        distributeGo maxLevel fuel
          { s1 with next_reaction_level := s1.next_reaction_level + 1 }
    else
      (0, s)

/-- `_lf_sched_distribute_ready_reactions_locked()` with `MAX_REACTION_LEVEL`
as an explicit parameter: scan the reaction queue array from
`next_reaction_level` up to `maxLevel`; return the size of the first
non-empty slot (pointing `executing_q` at it), or 0 when every remaining slot
is empty.  The fuel `maxLevel + 1 - next_reaction_level` is exactly the
number of iterations the C loop can make. -/
def lf_sched_distribute_ready_reactions_locked (maxLevel : Nat)
    (s : SchedState) : Nat × SchedState :=
  distributeGo maxLevel (maxLevel + 1 - s.next_reaction_level) s

/-- Modelled from the spec: a tag is an opaque pair (logical-time, microstep)
owned by the external tag subsystem; the scheduler only compares tags. -/
structure Tag where
  time : Int
  microstep : Nat
deriving DecidableEq, Repr

/-- Modelled from the spec: `compare_tags` is the total order on tags,
lexicographic on (logical-time, microstep), returning a negative, zero or
positive integer. -/
def compare_tags (t1 t2 : Tag) : Int :=
  if t1.time < t2.time then -1
  else if t2.time < t1.time then 1
  else if t1.microstep < t2.microstep then -1
  else if t2.microstep < t1.microstep then 1
  else 0

/-- The state read and written by the tag-advance gateway:
`logical_tag_completed` is `_lf_logical_tag_completed`, and `current_tag`,
`stop_tag` are the external tag variables read under the global mutex. -/
structure TagState where
  logical_tag_completed : Bool
  current_tag : Tag
  stop_tag : Tag
deriving DecidableEq, Repr

/-- The calls `_lf_sched_advance_tag_locked` makes into its external
collaborators: the tags passed to `logical_tag_complete`, in order, and the
number of calls to `_lf_next_locked`. -/
structure TagAdvanceEffects where
  logical_tag_complete_calls : List Tag
  next_locked_calls : Nat
deriving DecidableEq, Repr

/-- `_lf_sched_should_stop_locked()`: if `_lf_logical_tag_completed`, call
`logical_tag_complete(current_tag)` and return true when
`compare_tags(current_tag, stop_tag) >= 0`; in every other case return
false.  The second component records the `logical_tag_complete` calls. -/
def lf_sched_should_stop_locked (s : TagState) : Bool × List Tag :=
  if s.logical_tag_completed then
    if compare_tags s.current_tag s.stop_tag ≥ 0 then
      (true, [s.current_tag])
    else
      (false, [s.current_tag])
  else
    (false, [])

/-- `_lf_sched_advance_tag_locked()`: if `_lf_sched_should_stop_locked()`
returns true, return true without touching the state; otherwise set
`_lf_logical_tag_completed = true`, call `_lf_next_locked()` (external), and
return false. -/
def lf_sched_advance_tag_locked (s : TagState) :
    Bool × TagState × TagAdvanceEffects :=
  let r := lf_sched_should_stop_locked s
  if r.1 then
    (true, s, ⟨r.2, 0⟩)
  else
    (false, { s with logical_tag_completed := true }, ⟨r.2, 1⟩)

/-- What one iteration of the `lf_sched_get_ready_reaction` loop observes
under the locks: the `_lf_sched_should_stop` flag at the loop head and the
contents of `executing_q` at the mutex-protected pop.  Successive
observations differ because other workers and the advancer mutate the state
between iterations. -/
structure WorkerObservation where
  should_stop : Bool
  executing : List Reaction
deriving DecidableEq, Repr

/-- Modelled from the spec: `pqueue_pop` on the per-level priority queue (a
min-heap on `index`, external to this snapshot) removes and returns an
element of minimal `index`, or NULL on an empty queue; we take the leftmost
minimal element of the list of queue elements. -/
def popMin : List Reaction → Option (Reaction × List Reaction)
  | [] => none
  | r :: rest =>
    match popMin rest with
    | none => some (r, [])
    | some (m, rest2) =>
      if r.index ≤ m.index then some (r, rest) else some (m, r :: rest2)

/-- `lf_sched_get_ready_reaction(worker_number)` as a function of the
sequence of per-iteration observations: at each loop head, if
`_lf_sched_should_stop` is observed true the loop exits and the call returns
NULL (`some none`); otherwise the worker pops `executing_q` under
`_lf_sched_executing_q_mutex` and returns the popped reaction when non-NULL,
or calls `_lf_sched_wait_for_work` and retries.  `none` means the supplied
observation sequence ended with the loop still running.  `worker_number` is
used only for diagnostics in the code. -/
def lf_sched_get_ready_reaction (worker_number : Int) :
    List WorkerObservation → Option (Option Reaction)
  | [] => none
  | o :: rest =>
    if o.should_stop then
      some none
    else
      match popMin o.executing with
      | some (r, _) => some (some r)
      | none => lf_sched_get_ready_reaction worker_number rest

/-- The two operations of the code that change
`_lf_sched_number_of_idle_workers`, as atomic steps on the pair
(idle count, number of workers not counted idle):
`_lf_sched_wait_for_work` adds 1 to the idle count (line 305, only a worker
not already counted idle executes it), and `_lf_sched_notify_workers`
subtracts `MIN(idle, k)` (line 243), moving that many workers back to work.
`k` is the size of `executing_q` at that step. -/
inductive IdleStep : Nat × Nat → Nat × Nat → Prop
  | wait_for_work (idle busy : Nat) (h : 1 ≤ busy) :
      IdleStep (idle, busy) (idle + 1, busy - 1)
  | notify_workers (idle busy k : Nat) :
      IdleStep (idle, busy) (idle - min idle k, busy + min idle k)

/-- States of the idle tracker reachable from the initial state of
`lf_sched_init` (`_lf_sched_number_of_idle_workers = 0`, all
`number_of_workers` workers busy) by the steps of `IdleStep`. -/
inductive IdleReachable (number_of_workers : Nat) : Nat × Nat → Prop
  | start : IdleReachable number_of_workers (0, number_of_workers)
  | step (s s2 : Nat × Nat) (h : IdleReachable number_of_workers s)
      (hs : IdleStep s s2) : IdleReachable number_of_workers s2

/-- One teardown action performed by `lf_sched_free`. -/
inductive TeardownAction where
  | free_queue (slot : Nat)
  | destroy_semaphore
  | destroy_mutex
deriving DecidableEq, Repr

/-- What `lf_sched_init(number_of_workers)` sets up: a priority queue in
every slot `0..MAX_REACTION_LEVEL` of `vector_of_reaction_qs`,
`executing_q` aliased to slot 0, and `_lf_sched_should_stop = false`. -/
structure InitResult where
  allocated_slots : List Nat
  executing_slot : Nat
  should_stop : Bool
deriving DecidableEq, Repr

/-- `lf_sched_init(number_of_workers)` with `MAX_REACTION_LEVEL` as an
explicit parameter: allocates one priority queue per level `0..maxLevel`,
points `executing_q` at slot 0, clears the stop flag. -/
def lf_sched_init (number_of_workers : Nat) (maxLevel : Nat) : InitResult :=
  ⟨List.range (maxLevel + 1), 0, false⟩

/-- `lf_sched_free()`: the per-level loop freeing
`vector_of_reaction_qs[0..MAX_REACTION_LEVEL]` is commented out in the
source ("FIXME: This is causing weird memory errors"); the code frees only
the single queue aliased by `executing_q` and then destroys the semaphore.
No mutex is destroyed.  The argument is the slot `executing_q` aliases when
`lf_sched_free` runs. -/
def lf_sched_free (executing_slot : Nat) : List TeardownAction :=
  [TeardownAction.free_queue executing_slot, TeardownAction.destroy_semaphore]

/-- A concrete reaction used as a test input: level 0, status `inactive`. -/
def sampleReaction : Reaction :=
  ⟨0, ReactionStatus.inactive, "r0"⟩

/-- The scheduler state right after `lf_sched_init`: every queue empty,
`executing_q` aliasing slot 0, `_lf_sched_next_reaction_level = 0`. -/
def sampleState : SchedState :=
  ⟨fun _ => [], 0, 0⟩

/-- A concrete state in which level 0 is being drained: `executing_q`
aliases slot 0 and `_lf_sched_next_reaction_level = 1`. -/
def drainState : SchedState :=
  ⟨fun _ => [], 0, 1⟩

section Claims

/-- C3: for a non-null reaction, `lf_sched_trigger_reaction` succeeds in the
CAS iff the status was `inactive`; on success it appends the reaction (now
`queued`) to `RQA[LEVEL(index)]` and touches no other slot; on failure it is
a no-op on both the state and the reaction; a null reaction is ignored; and
two trigger calls on the same shared reaction cell are equivalent to one. -/
theorem trigger_reaction_spec (r : Reaction) (worker_number : Int)
    (s : SchedState) :
    (r.status = ReactionStatus.inactive →
      (lf_sched_trigger_reaction (some r) worker_number s).2 =
        some { r with status := ReactionStatus.queued } ∧
      (lf_sched_trigger_reaction (some r) worker_number s).1.rqa
          (LEVEL r.index) =
        s.rqa (LEVEL r.index) ++ [{ r with status := ReactionStatus.queued }] ∧
      (∀ l, l ≠ LEVEL r.index →
        (lf_sched_trigger_reaction (some r) worker_number s).1.rqa l =
          s.rqa l)) ∧
    (r.status ≠ ReactionStatus.inactive →
      lf_sched_trigger_reaction (some r) worker_number s = (s, some r)) ∧
    lf_sched_trigger_reaction none worker_number s = (s, none) ∧
    triggerStep (triggerStep (s, some r) worker_number) worker_number =
      triggerStep (s, some r) worker_number := by
  by_cases h : r.status = ReactionStatus.inactive
  · refine ⟨fun _ => ?_, fun hc => absurd h hc, rfl, ?_⟩
    · refine ⟨?_, ?_, ?_⟩
      · simp [lf_sched_trigger_reaction, h]
      · simp [lf_sched_trigger_reaction, h, lf_sched_insert_reaction]
      · intro l hl
        simp [lf_sched_trigger_reaction, h, lf_sched_insert_reaction, hl]
    · simp [triggerStep, lf_sched_trigger_reaction, h]
  · refine ⟨fun hc => absurd hc h, fun _ => ?_, rfl, ?_⟩
    · simp [lf_sched_trigger_reaction, h]
    · simp [triggerStep, lf_sched_trigger_reaction, h]

/-- Witness for C3 at a concrete input: triggering the inactive
`sampleReaction` in the post-init state marks it `queued`. -/
theorem trigger_reaction_spec_witness :
    (lf_sched_trigger_reaction (some sampleReaction) 1 sampleState).2 =
      some { sampleReaction with status := ReactionStatus.queued } :=
  ((trigger_reaction_spec sampleReaction 1 sampleState).1 (by decide)).1

/-- C6: `lf_sched_done_with_reaction` performs the CAS
`status: queued -> inactive`, changing only the status; any other observed
prior status is a fatal abort with a diagnostic. -/
theorem done_with_reaction_spec (worker_number : Nat) (r : Reaction) :
    (r.status = ReactionStatus.queued →
      lf_sched_done_with_reaction worker_number r =
        DoneResult.ok { r with status := ReactionStatus.inactive }) ∧
    (r.status ≠ ReactionStatus.queued →
      lf_sched_done_with_reaction worker_number r =
        DoneResult.fatal "Unexpected reaction status") := by
  constructor
  · intro h
    simp [lf_sched_done_with_reaction, h]
  · intro h
    simp [lf_sched_done_with_reaction, h]

/-- Witness for C6 at a concrete input: completing a queued reaction resets
its status to `inactive`, and completing it again is the fatal path. -/
theorem done_with_reaction_spec_witness :
    lf_sched_done_with_reaction 0 ⟨0, ReactionStatus.queued, "r0"⟩ =
      DoneResult.ok ⟨0, ReactionStatus.inactive, "r0"⟩ ∧
    lf_sched_done_with_reaction 0 ⟨0, ReactionStatus.inactive, "r0"⟩ =
      DoneResult.fatal "Unexpected reaction status" :=
  ⟨(done_with_reaction_spec 0 ⟨0, ReactionStatus.queued, "r0"⟩).1 (by decide),
   (done_with_reaction_spec 0 ⟨0, ReactionStatus.inactive, "r0"⟩).2 (by decide)⟩

/-- C7: `_lf_sched_notify_workers` wakes `w = MIN(n_idle, size(executing_q))`
workers: the idle count drops by exactly `w`, and the semaphore is released
by `w - 1` permits when `w > 1` and by none when `w <= 1`. -/
theorem notify_workers_spec (n k : Nat) :
    (lf_sched_notify_workers n k).1 = n - min n k ∧
    n - (lf_sched_notify_workers n k).1 = min n k ∧
    (min n k > 1 → (lf_sched_notify_workers n k).2 = min n k - 1) ∧
    (min n k ≤ 1 → (lf_sched_notify_workers n k).2 = 0) := by
  refine ⟨rfl, ?_, ?_, ?_⟩
  · have hmin : min n k ≤ n := Nat.min_le_left n k
    simp only [lf_sched_notify_workers]
    omega
  · intro h
    simp [lf_sched_notify_workers, h]
  · intro h
    have h2 : ¬ min n k > 1 := by omega
    simp [lf_sched_notify_workers, h2]

/-- Witness for C7 at a concrete input: three idle workers and two ready
reactions give `w = 2`, so one permit is released. -/
theorem notify_workers_spec_witness :
    (lf_sched_notify_workers 3 2).2 = min 3 2 - 1 :=
  (notify_workers_spec 3 2).2.2.1 (by decide)

/-- C4: `_lf_sched_advance_tag_locked` returns true (stop) iff on entry
`_lf_logical_tag_completed` is true and
`compare_tags(current_tag, stop_tag) >= 0`; on the stop path
`logical_tag_complete(current_tag)` has been called and `_lf_next_locked`
has not, with the state untouched; `logical_tag_complete` is called exactly
once whenever `_lf_logical_tag_completed` holds on entry (never otherwise);
and the non-stop path sets `_lf_logical_tag_completed`, calls
`_lf_next_locked` exactly once, and returns false. -/
theorem advance_tag_locked_spec (s : TagState) :
    ((lf_sched_advance_tag_locked s).1 = true ↔
      s.logical_tag_completed = true ∧
        compare_tags s.current_tag s.stop_tag ≥ 0) ∧
    ((lf_sched_advance_tag_locked s).1 = true →
      (lf_sched_advance_tag_locked s).2.2.logical_tag_complete_calls =
        [s.current_tag] ∧
      (lf_sched_advance_tag_locked s).2.2.next_locked_calls = 0 ∧
      (lf_sched_advance_tag_locked s).2.1 = s) ∧
    (s.logical_tag_completed = true →
      (lf_sched_advance_tag_locked s).2.2.logical_tag_complete_calls =
        [s.current_tag]) ∧
    (s.logical_tag_completed = false →
      (lf_sched_advance_tag_locked s).2.2.logical_tag_complete_calls = []) ∧
    ((lf_sched_advance_tag_locked s).1 = false →
      (lf_sched_advance_tag_locked s).2.1.logical_tag_completed = true ∧
      (lf_sched_advance_tag_locked s).2.2.next_locked_calls = 1) := by
  by_cases hc : s.logical_tag_completed
  · by_cases hstop : compare_tags s.current_tag s.stop_tag ≥ 0
    · refine ⟨?_, ?_, ?_, ?_, ?_⟩ <;>
        simp [lf_sched_advance_tag_locked, lf_sched_should_stop_locked, hc,
          hstop]
    · refine ⟨?_, ?_, ?_, ?_, ?_⟩ <;>
        simp [lf_sched_advance_tag_locked, lf_sched_should_stop_locked, hc,
          hstop]
  · refine ⟨?_, ?_, ?_, ?_, ?_⟩ <;>
      simp [lf_sched_advance_tag_locked, lf_sched_should_stop_locked, hc]

/-- Witness for C4 at a concrete input: with a completed tag at or past the
stop tag, the stop path reports the tag complete without advancing. -/
theorem advance_tag_locked_spec_witness :
    (lf_sched_advance_tag_locked ⟨true, ⟨5, 0⟩, ⟨3, 0⟩⟩).2.2.next_locked_calls
        = 0 :=
  ((advance_tag_locked_spec ⟨true, ⟨5, 0⟩, ⟨3, 0⟩⟩).2.1 (by decide)).2.1

/-- C10: the `worker_number` argument has no influence on either
`lf_sched_trigger_reaction` or `lf_sched_done_with_reaction`: any two worker
numbers (including the anonymous -1) give identical results and state
effects, and triggering by a worker behaves exactly like the documented
immediate -1 call. -/
theorem worker_number_irrelevant (r : Option Reaction) (rd : Reaction)
    (w1 w2 : Int) (wd1 wd2 : Nat) (s : SchedState) :
    lf_sched_trigger_reaction r w1 s = lf_sched_trigger_reaction r w2 s ∧
    lf_sched_trigger_reaction r w1 s = lf_sched_trigger_reaction r (-1) s ∧
    lf_sched_done_with_reaction wd1 rd = lf_sched_done_with_reaction wd2 rd :=
  ⟨rfl, rfl, rfl⟩

/-- C1 (amended): in builds with the FEDERATED same-level locking compiled
in, an insert whose level equals `next_reaction_level - 1` (size_t
arithmetic, as the code computes it) is always performed under
`exec_q_mutex`; and in every state in which `executing_q` references the
slot currently being drained (`executing_slot = next_reaction_level - 1`
with `next_reaction_level >= 1`), no insert into that slot is unlocked.
The unrestricted claim fails at `next_reaction_level = 0`, see the
counterexample. -/
theorem insert_reaction_locking (r : Reaction) (s : SchedState) :
    (LEVEL r.index = wrapSub1 s.next_reaction_level →
      (lf_sched_insert_reaction r s).1 = true) ∧
    (1 ≤ s.next_reaction_level →
      s.executing_slot = s.next_reaction_level - 1 →
      LEVEL r.index = s.executing_slot →
      (lf_sched_insert_reaction r s).1 = true) := by
  constructor
  · intro h
    simp [lf_sched_insert_reaction, h]
  · intro h1 h2 h3
    have hne : s.next_reaction_level ≠ 0 := by omega
    have h4 : LEVEL r.index = wrapSub1 s.next_reaction_level := by
      rw [h3, h2, wrapSub1, if_neg hne]
    simp [lf_sched_insert_reaction, h4]

/-- Witness for C1 at a concrete input: while level 0 is being drained
(`next_reaction_level = 1`, `executing_q` at slot 0), inserting a level-0
reaction takes the mutex. -/
theorem insert_reaction_locking_witness :
    (lf_sched_insert_reaction sampleReaction drainState).1 = true :=
  (insert_reaction_locking sampleReaction drainState).2 (by decide) (by decide)
    (by decide)

/-- Counterexample to C1 as stated: in the post-init state
(`next_reaction_level = 0`, `executing_q` referencing slot 0), triggering
the inactive level-0 `sampleReaction` succeeds in the CAS and inserts it
into the very slot `executing_q` references, yet the insert is unlocked,
because `next_reaction_level - 1` wraps to `2^64 - 1` in size_t arithmetic
and matches no level. -/
theorem insert_reaction_locking_cex :
    sampleReaction.status = ReactionStatus.inactive ∧
    LEVEL sampleReaction.index = sampleState.executing_slot ∧
    (lf_sched_trigger_reaction (some sampleReaction) (-1) sampleState).1.rqa
        sampleState.executing_slot =
      [{ sampleReaction with status := ReactionStatus.queued }] ∧
    (lf_sched_insert_reaction
        { sampleReaction with status := ReactionStatus.queued }
        sampleState).1 = false := by
  refine ⟨rfl, rfl, by decide, ?_⟩
  decide

/-- C2 (evidence): `lf_sched_init` with `MAX_REACTION_LEVEL = 2` allocates
queues in slots 0, 1 and 2 and leaves `executing_q` at slot 0, but
`lf_sched_free` in that state frees only the one queue `executing_q`
references and destroys the semaphore: slot 1 (and 2) is never freed and
`exec_q_mutex` is never destroyed, contradicting the claim that every
allocated queue is released exactly once and the mutex released. -/
theorem sched_free_leaks_queues :
    (lf_sched_init 1 2).allocated_slots = [0, 1, 2] ∧
    (lf_sched_init 1 2).executing_slot = 0 ∧
    lf_sched_free (lf_sched_init 1 2).executing_slot =
      [TeardownAction.free_queue 0, TeardownAction.destroy_semaphore] ∧
    (lf_sched_free 0).count (TeardownAction.free_queue 1) = 0 ∧
    TeardownAction.destroy_mutex ∉ lf_sched_free 0 := by
  refine ⟨by decide, rfl, rfl, by decide, by decide⟩

/-- C9: in every reachable state of the idle tracker, the idle count plus
the number of workers not counted idle is exactly `number_of_workers`, and
hence `0 <= n_idle <= n_workers`: `_lf_sched_wait_for_work` adds one idle
worker only when one is busy, and `_lf_sched_notify_workers` subtracts
`MIN(n_idle, k)`, never more than the current count. -/
theorem idle_tracker_invariant (number_of_workers : Nat) (s : Nat × Nat)
    (h : IdleReachable number_of_workers s) :
    s.1 + s.2 = number_of_workers ∧ s.1 ≤ number_of_workers := by
  induction h with
  | start => simp
  | step s s2 hr hs ih =>
    cases hs with
    | wait_for_work idle busy hb =>
      simp only at ih ⊢
      omega
    | notify_workers idle busy k =>
      have hmin : min idle k ≤ idle := Nat.min_le_left idle k
      simp only at ih ⊢
      omega

/-- Witness for C9 at a concrete input: with two workers, the state after
one worker goes idle is reachable and satisfies the bound. -/
theorem idle_tracker_invariant_witness :
    (1 : Nat) + 1 = 2 ∧ (1 : Nat) ≤ 2 :=
  idle_tracker_invariant 2 (1, 1)
    (IdleReachable.step (0, 2) (1, 1) IdleReachable.start
      (IdleStep.wait_for_work 0 2 (by decide)))

/-- A priority queue that pops nothing is empty. -/
theorem popMin_eq_none (l : List Reaction) (h : popMin l = none) : l = [] := by
  cases l with
  | nil => rfl
  | cons a rest =>
    exfalso
    simp only [popMin] at h
    split at h
    · exact Option.noConfusion h
    · split at h <;> exact Option.noConfusion h

/-- A popped reaction belongs to the queue and has minimal index in it. -/
theorem popMin_mem_min (l : List Reaction) (r : Reaction) (l2 : List Reaction)
    (h : popMin l = some (r, l2)) : r ∈ l ∧ ∀ x ∈ l, r.index ≤ x.index := by
  induction l generalizing r l2 with
  | nil => exact Option.noConfusion h
  | cons a rest ih =>
    simp only [popMin] at h
    split at h
    · rename_i heq
      injection h with h2
      injection h2 with h3 h4
      subst h3
      have hempty := popMin_eq_none rest heq
      subst hempty
      refine ⟨List.mem_cons_self a [], ?_⟩
      intro x hx
      rcases List.mem_cons.mp hx with hx | hx
      · subst hx
        exact le_refl _
      · exact absurd hx (List.not_mem_nil x)
    · rename_i m rest2 heq
      have ihm := ih m rest2 heq
      split at h
      · rename_i hle
        injection h with h2
        injection h2 with h3 h4
        subst h3
        refine ⟨List.mem_cons_self a rest, ?_⟩
        intro x hx
        rcases List.mem_cons.mp hx with hx | hx
        · subst hx
          exact le_refl _
        · exact le_trans hle (ihm.2 x hx)
      · rename_i hle
        injection h with h2
        injection h2 with h3 h4
        subst h3
        refine ⟨List.mem_cons_of_mem a ihm.1, ?_⟩
        intro x hx
        rcases List.mem_cons.mp hx with hx | hx
        · subst hx
          omega
        · exact ihm.2 x hx

/-- C8: `lf_sched_get_ready_reaction` returns NULL only when an iteration
observed `_lf_sched_should_stop` true at the loop head, and every non-NULL
return value is the reaction popped from `executing_q` under
`_lf_sched_executing_q_mutex` at an iteration where the stop flag was false,
so it had minimal index in `executing_q` at the pop. -/
theorem get_ready_reaction_spec (worker_number : Int)
    (trace : List WorkerObservation) :
    (lf_sched_get_ready_reaction worker_number trace = some none →
      ∃ o ∈ trace, o.should_stop = true) ∧
    (∀ r, lf_sched_get_ready_reaction worker_number trace = some (some r) →
      ∃ o ∈ trace, o.should_stop = false ∧ r ∈ o.executing ∧
        ∀ x ∈ o.executing, r.index ≤ x.index) := by
  induction trace with
  | nil =>
    constructor
    · intro h
      exact Option.noConfusion h
    · intro r h
      exact Option.noConfusion h
  | cons o rest ih =>
    constructor
    · intro h
      by_cases hstop : o.should_stop
      · exact ⟨o, List.mem_cons_self o rest, hstop⟩
      · simp only [lf_sched_get_ready_reaction, if_neg hstop] at h
        split at h
        · exact absurd (Option.some.inj h) (by simp)
        · obtain ⟨o2, ho2, hstop2⟩ := ih.1 h
          exact ⟨o2, List.mem_cons_of_mem o ho2, hstop2⟩
    · intro r h
      by_cases hstop : o.should_stop
      · simp only [lf_sched_get_ready_reaction, if_pos hstop] at h
        exact absurd (Option.some.inj h) (by simp)
      · simp only [lf_sched_get_ready_reaction, if_neg hstop] at h
        split at h
        · rename_i r2 rest2 heq
          have hr : r2 = r := by
            simpa using h
          subst hr
          have hmm := popMin_mem_min o.executing r2 rest2 heq
          exact ⟨o, List.mem_cons_self o rest,
            Bool.eq_false_iff.mpr hstop, hmm.1, hmm.2⟩
        · obtain ⟨o2, ho2, hp⟩ := ih.2 r h
          exact ⟨o2, List.mem_cons_of_mem o ho2, hp⟩

/-- Witness for C8 at a concrete input: on a trace with one iteration whose
queue holds indices 3 and 1, the call returns the index-1 reaction, the
minimum of the observed queue. -/
theorem get_ready_reaction_spec_witness :
    ∃ o ∈ [(⟨false, [⟨3, ReactionStatus.queued, "a"⟩,
        ⟨1, ReactionStatus.queued, "b"⟩]⟩ : WorkerObservation)],
      o.should_stop = false ∧
        (⟨1, ReactionStatus.queued, "b"⟩ : Reaction) ∈ o.executing ∧
        ∀ x ∈ o.executing,
          (⟨1, ReactionStatus.queued, "b"⟩ : Reaction).index ≤ x.index :=
  (get_ready_reaction_spec 0
      [⟨false, [⟨3, ReactionStatus.queued, "a"⟩,
        ⟨1, ReactionStatus.queued, "b"⟩]⟩]).2
    ⟨1, ReactionStatus.queued, "b"⟩ (by decide)

/-- Loop invariant of `_lf_sched_distribute_ready_reactions_locked`: with
fuel equal to the remaining iterations, the loop never changes the queue
contents; a positive return value is the size of the first non-empty slot at
or above the entry level, with `executing_q` pointing at that slot, the
level counter one past it, and all skipped slots empty; a zero return value
means every slot from the entry level to `maxLevel` is empty and the level
counter ends at `maxLevel + 1`. -/
theorem distributeGo_spec (maxLevel : Nat) (fuel : Nat) (s : SchedState)
    (hfuel : s.next_reaction_level + fuel = maxLevel + 1) :
    (distributeGo maxLevel fuel s).2.rqa = s.rqa ∧
    ((distributeGo maxLevel fuel s).1 > 0 →
      (distributeGo maxLevel fuel s).2.next_reaction_level =
        (distributeGo maxLevel fuel s).2.executing_slot + 1 ∧
      s.next_reaction_level ≤ (distributeGo maxLevel fuel s).2.executing_slot ∧
      (distributeGo maxLevel fuel s).2.executing_slot ≤ maxLevel ∧
      (distributeGo maxLevel fuel s).1 =
        (s.rqa (distributeGo maxLevel fuel s).2.executing_slot).length ∧
      (∀ l, s.next_reaction_level ≤ l →
        l < (distributeGo maxLevel fuel s).2.executing_slot →
        s.rqa l = [])) ∧
    ((distributeGo maxLevel fuel s).1 = 0 →
      (∀ l, s.next_reaction_level ≤ l → l ≤ maxLevel → s.rqa l = []) ∧
      (distributeGo maxLevel fuel s).2.next_reaction_level = maxLevel + 1) := by
  induction fuel generalizing s with
  | zero =>
    refine ⟨rfl, ?_, ?_⟩
    · intro h
      simp [distributeGo] at h
    · intro h
      refine ⟨?_, ?_⟩
      · intro l hl1 hl2
        omega
      · simp only [distributeGo]
        omega
  | succ fuel ih =>
    have hle : s.next_reaction_level ≤ maxLevel := by omega
    by_cases hk : 0 < (s.rqa s.next_reaction_level).length
    · have heq : distributeGo maxLevel (fuel + 1) s =
          ((s.rqa s.next_reaction_level).length,
            { s with
              executing_slot := s.next_reaction_level,
              next_reaction_level := s.next_reaction_level + 1 }) := by
        simp [distributeGo, hle, hk]
      rw [heq]
      dsimp only
      refine ⟨rfl, ?_, ?_⟩
      · intro _
        refine ⟨rfl, le_refl _, hle, rfl, ?_⟩
        intro l hl1 hl2
        omega
      · intro h0
        omega
    · have hlen : (s.rqa s.next_reaction_level).length = 0 := by omega
      have heq : distributeGo maxLevel (fuel + 1) s =
          distributeGo maxLevel fuel
            { s with
              executing_slot := s.next_reaction_level,
              next_reaction_level := s.next_reaction_level + 1 } := by
        simp [distributeGo, hle, hk]
      have ih2 := ih
        { s with
          executing_slot := s.next_reaction_level,
          next_reaction_level := s.next_reaction_level + 1 }
        (by simp only; omega)
      dsimp only at ih2
      rw [heq]
      refine ⟨ih2.1, ?_, ?_⟩
      · intro hpos
        obtain ⟨g1, g2, g3, g4, g5⟩ := ih2.2.1 hpos
        refine ⟨g1, by omega, g3, g4, ?_⟩
        intro l hl1 hl2
        by_cases hl : l = s.next_reaction_level
        · subst hl
          exact List.length_eq_zero.mp hlen
        · exact g5 l (by omega) hl2
      · intro h0
        obtain ⟨g1, g2⟩ := ih2.2.2 h0
        refine ⟨?_, g2⟩
        intro l hl1 hl2
        by_cases hl : l = s.next_reaction_level
        · subst hl
          exact List.length_eq_zero.mp hlen
        · exact g1 l (by omega) hl2

/-- C5: for every state with `next_reaction_level <= maxLevel` whose queue
array is well-formed (slot `l` holds only level-`l` reactions, which the
enqueue path guarantees), `_lf_sched_distribute_ready_reactions_locked`
leaves the queues untouched and scans upward from `next_reaction_level`: a
positive return `k` is the size of the first non-empty slot, `executing_q`
points at that slot, `next_reaction_level` ends one past it (so
`next_reaction_level - 1` is the level of every reaction in `executing_q`),
and all slots skipped on the way are empty; a zero return means every slot
through `maxLevel` is empty and `next_reaction_level` ends at
`maxLevel + 1`. -/
theorem distribute_ready_reactions_spec (maxLevel : Nat) (s : SchedState)
    (hnl : s.next_reaction_level ≤ maxLevel)
    (hwf : ∀ l, ∀ x ∈ s.rqa l, LEVEL x.index = l) :
    (lf_sched_distribute_ready_reactions_locked maxLevel s).2.rqa = s.rqa ∧
    ((lf_sched_distribute_ready_reactions_locked maxLevel s).1 > 0 →
      (lf_sched_distribute_ready_reactions_locked maxLevel s).2.executing_slot
          ≤ maxLevel ∧
      s.next_reaction_level ≤
        (lf_sched_distribute_ready_reactions_locked maxLevel
          s).2.executing_slot ∧
      (lf_sched_distribute_ready_reactions_locked
          maxLevel s).2.next_reaction_level =
        (lf_sched_distribute_ready_reactions_locked maxLevel
          s).2.executing_slot + 1 ∧
      (lf_sched_distribute_ready_reactions_locked maxLevel s).1 =
        (s.rqa (lf_sched_distribute_ready_reactions_locked maxLevel
          s).2.executing_slot).length ∧
      (∀ l, s.next_reaction_level ≤ l →
        l < (lf_sched_distribute_ready_reactions_locked maxLevel
          s).2.executing_slot →
        s.rqa l = []) ∧
      (∀ x ∈ s.rqa (lf_sched_distribute_ready_reactions_locked maxLevel
          s).2.executing_slot,
        LEVEL x.index =
          (lf_sched_distribute_ready_reactions_locked
            maxLevel s).2.next_reaction_level - 1)) ∧
    ((lf_sched_distribute_ready_reactions_locked maxLevel s).1 = 0 →
      (∀ l, s.next_reaction_level ≤ l → l ≤ maxLevel → s.rqa l = []) ∧
      (lf_sched_distribute_ready_reactions_locked
          maxLevel s).2.next_reaction_level = maxLevel + 1) := by
  have h := distributeGo_spec maxLevel
    (maxLevel + 1 - s.next_reaction_level) s (by omega)
  simp only [lf_sched_distribute_ready_reactions_locked]
  refine ⟨h.1, ?_, h.2.2⟩
  intro hpos
  obtain ⟨g1, g2, g3, g4, g5⟩ := h.2.1 hpos
  refine ⟨g3, g2, g1, g4, g5, ?_⟩
  intro x hx
  rw [hwf _ x hx, g1]
  omega

/-- Witness for C5 at a concrete input: in the post-init state with
`MAX_REACTION_LEVEL = 2` all slots are empty, so the scan returns 0 and the
level counter ends at `MAX_REACTION_LEVEL + 1 = 3`. -/
theorem distribute_ready_reactions_spec_witness :
    (lf_sched_distribute_ready_reactions_locked
        2 sampleState).2.next_reaction_level = 3 :=
  ((distribute_ready_reactions_spec 2 sampleState (by decide)
      (fun l x hx => absurd hx (List.not_mem_nil x))).2.2 (by decide)).2

end Claims

end GedfNP
